import Mathlib

/-!
Verification of the camera line-calling pipeline.

The development shallowly embeds the core of the repository:
`common/homography_controller.py` (landing-point detection, trajectory
smoothing, line intersection, zone construction, the annotation loop),
`common/inference_controller.py` (track production) and the orchestration
in `app.py`.  Machine floats are modelled by exact rationals; pandas /
NumPy vectorised operations are modelled by explicit list computations.
-/

namespace Camera

/-- Python `int()` applied to an exact rational: truncation toward zero. -/
def pyInt (q : ℚ) : ℤ := q.num / (q.den : ℤ)

/-- One row of the position-track CSV (`Frame,Visibility,X,Y`): a
visibility flag and the raw pixel coordinates. -/
structure Sample where
  vis : Bool
  x : ℚ
  y : ℚ
deriving DecidableEq, Repr

/-- Masked X coordinate, as built by
`df_visible.loc[df_visible['Visibility'] == 0, ['X','Y']] = np.nan`:
invisible samples become missing (`none`). -/
def Sample.maskedX (s : Sample) : Option ℚ := if s.vis then some s.x else none

/-- Masked Y coordinate (same masking as `Sample.maskedX`). -/
def Sample.maskedY (s : Sample) : Option ℚ := if s.vis then some s.y else none

/-- Values of the centered 7-wide window around index `i` of `xs`:
entries at indices `j` with `i - 3 ≤ j ≤ i + 3`, clipped to the list.
This is the window pandas uses for `rolling(7, center=True)`. -/
def window7 (xs : List (Option ℚ)) (i : ℕ) : List (Option ℚ) :=
  (xs.take (i + 4)).drop (i - 3)

/-- `pandas.Series.rolling(7, center=True, min_periods=1).mean()`:
at each index the mean of the non-missing values in the centered
7-wide window; `none` exactly when every window entry is missing
(`min_periods=1` requires a single observation). -/
def rollingMean7 (xs : List (Option ℚ)) : List (Option ℚ) :=
  (List.range xs.length).map (fun i =>
    let w := (window7 xs i).filterMap id
    if w.isEmpty then none else some (w.sum / w.length))

/-- The smoothed X column `X_smooth` of `get_landing_point`. -/
def smoothX (track : List Sample) : List (Option ℚ) :=
  rollingMean7 (track.map Sample.maskedX)

/-- The smoothed Y column `Y_smooth` of `get_landing_point`. -/
def smoothY (track : List Sample) : List (Option ℚ) :=
  rollingMean7 (track.map Sample.maskedY)

/-- The clustering loop of `get_landing_point`: `cur` is the cluster
being grown, `prev` the previously seen hit (`hits[i-1]`); a hit within
30 frames of `prev` extends `cur`, otherwise `cur` is closed and a new
cluster starts. -/
def clusterGo (prev : ℕ) (cur : List ℕ) : List ℕ → List (List ℕ)
  | [] => [cur]
  | h :: t =>
      if h - prev ≤ 30 then clusterGo h (cur ++ [h]) t
      else cur :: clusterGo h [h] t

/-- `get_landing_point`'s clustering of the flagged frame indices
(`hits`) by the 30-frame gap rule. -/
def clusterHits : List ℕ → List (List ℕ)
  | [] => []
  | h :: t => clusterGo h [h] t

/-- `clusters[-1]` of `get_landing_point`: the last cluster. -/
def lastCluster (hits : List ℕ) : List ℕ :=
  (clusterHits hits).getLastD []

/-- Whether frame `idx` of the track holds a valid (non-missing) masked
position, i.e. `not np.isnan(X) and not np.isnan(Y)` on the masked
columns. -/
def validAt (track : List Sample) (idx : ℕ) : Bool :=
  match track.get? idx with
  | some s => ((s.maskedX).isSome && (s.maskedY).isSome)
  | none => false

/-- The landing point extracted from frame `idx`:
`(int(X), int(Y))` of the masked coordinates, when both are present. -/
def landingAt (track : List Sample) (idx : ℕ) : Option ((ℤ × ℤ) × ℕ) :=
  match track.get? idx with
  | some s =>
      match s.maskedX, s.maskedY with
      | some x, some y => some ((pyInt x, pyInt y), idx)
      | _, _ => none
  | none => none

/-- The tail of `get_landing_point`, after the direction-change angles
have been computed: `hits` is the list of flagged frame indices
(`df_visible[df_visible['Direction Change'] > 30].index.tolist()`, an
increasing list).  The floating-point angle computation itself is kept
abstract; everything from the `if not hits` test onwards is embedded
literally: cluster the hits, take the last cluster, scan it in order for
the first frame with a valid masked position. -/
def getLandingPointFromHits (track : List Sample) (hits : List ℕ) :
    Option ((ℤ × ℤ) × ℕ) :=
  if hits.isEmpty then none
  else (lastCluster hits).findSome? (landingAt track)

/-! ### Geometry: homography, line intersection, zone construction -/

/-- A 3×3 real matrix (entries modelled as exact rationals), the
representation of a homography as produced by `cv2.findHomography`. -/
structure M3 where
  m11 : ℚ
  m12 : ℚ
  m13 : ℚ
  m21 : ℚ
  m22 : ℚ
  m23 : ℚ
  m31 : ℚ
  m32 : ℚ
  m33 : ℚ
deriving DecidableEq, Repr

attribute [ext] M3

/-- Matrix product of two 3×3 matrices (`numpy` `@`). -/
def mul3 (A B : M3) : M3 where
  m11 := A.m11 * B.m11 + A.m12 * B.m21 + A.m13 * B.m31
  m12 := A.m11 * B.m12 + A.m12 * B.m22 + A.m13 * B.m32
  m13 := A.m11 * B.m13 + A.m12 * B.m23 + A.m13 * B.m33
  m21 := A.m21 * B.m11 + A.m22 * B.m21 + A.m23 * B.m31
  m22 := A.m21 * B.m12 + A.m22 * B.m22 + A.m23 * B.m32
  m23 := A.m21 * B.m13 + A.m22 * B.m23 + A.m23 * B.m33
  m31 := A.m31 * B.m11 + A.m32 * B.m21 + A.m33 * B.m31
  m32 := A.m31 * B.m12 + A.m32 * B.m22 + A.m33 * B.m32
  m33 := A.m31 * B.m13 + A.m32 * B.m23 + A.m33 * B.m33

/-- The identity 3×3 matrix. -/
def id3 : M3 := ⟨1, 0, 0, 0, 1, 0, 0, 0, 1⟩

/-- Determinant of a 3×3 matrix. -/
def det3 (M : M3) : ℚ :=
  M.m11 * (M.m22 * M.m33 - M.m23 * M.m32)
    - M.m12 * (M.m21 * M.m33 - M.m23 * M.m31)
    + M.m13 * (M.m21 * M.m32 - M.m22 * M.m31)

/-- Modelled from the spec: `np.linalg.inv` on a 3×3 matrix (NumPy is
external to the repository).  The mathematical matrix inverse, written
as the adjugate divided by the determinant. -/
def inv3 (M : M3) : M3 where
  m11 := (M.m22 * M.m33 - M.m23 * M.m32) / det3 M
  m12 := (M.m13 * M.m32 - M.m12 * M.m33) / det3 M
  m13 := (M.m12 * M.m23 - M.m13 * M.m22) / det3 M
  m21 := (M.m23 * M.m31 - M.m21 * M.m33) / det3 M
  m22 := (M.m11 * M.m33 - M.m13 * M.m31) / det3 M
  m23 := (M.m13 * M.m21 - M.m11 * M.m23) / det3 M
  m31 := (M.m21 * M.m32 - M.m22 * M.m31) / det3 M
  m32 := (M.m12 * M.m31 - M.m11 * M.m32) / det3 M
  m33 := (M.m11 * M.m22 - M.m12 * M.m21) / det3 M

/-- Modelled from the spec: `cv2.perspectiveTransform` (OpenCV is
external to the repository) applied to a single point — the projective
action `(x, y) ↦ ((m11·x + m12·y + m13)/w, (m21·x + m22·y + m23)/w)`
with `w = m31·x + m32·y + m33`. -/
def applyH (M : M3) (p : ℚ × ℚ) : ℚ × ℚ :=
  ((M.m11 * p.1 + M.m12 * p.2 + M.m13) / (M.m31 * p.1 + M.m32 * p.2 + M.m33),
   (M.m21 * p.1 + M.m22 * p.2 + M.m23) / (M.m31 * p.1 + M.m32 * p.2 + M.m33))

/-- The denominator test of `line_intersection`:
`(x1-x2)*(y3-y4) - (y1-y2)*(x3-x4)`; zero exactly for parallel lines. -/
def interDenom (p1 p2 p3 p4 : ℚ × ℚ) : ℚ :=
  (p1.1 - p2.1) * (p3.2 - p4.2) - (p1.2 - p2.2) * (p3.1 - p4.1)

/-- `line_intersection(p1, p2, p3, p4)`: `None` when the denominator is
zero (parallel lines), otherwise the truncated integer intersection
point. -/
def line_intersection (p1 p2 p3 p4 : ℚ × ℚ) : Option (ℤ × ℤ) :=
  if interDenom p1 p2 p3 p4 = 0 then none
  else
    let d := interDenom p1 p2 p3 p4
    some (pyInt (((p1.1 * p2.2 - p1.2 * p2.1) * (p3.1 - p4.1)
            - (p1.1 - p2.1) * (p3.1 * p4.2 - p3.2 * p4.1)) / d),
          pyInt (((p1.1 * p2.2 - p1.2 * p2.1) * (p3.2 - p4.2)
            - (p1.2 - p2.2) * (p3.1 * p4.2 - p3.2 * p4.1)) / d))

/-- `COURT_TEMPLATE["baseline_bottom"]`. -/
def baseline_bottom : (ℚ × ℚ) × (ℚ × ℚ) := ((286, 2935), (1379, 2935))

/-- `COURT_TEMPLATE["net"]`. -/
def net : (ℚ × ℚ) × (ℚ × ℚ) := ((286, 1748), (1379, 1748))

/-- `COURT_TEMPLATE["left_inner_line"]`. -/
def left_inner_line : (ℚ × ℚ) × (ℚ × ℚ) := ((368, 2935), (368, 2099))

/-- `COURT_TEMPLATE["right_inner_line"]`. -/
def right_inner_line : (ℚ × ℚ) × (ℚ × ℚ) := ((1295, 2935), (1295, 2099))

/-- A court-template line mapped into the video frame by the homography
(`cv2.perspectiveTransform` on both endpoints). -/
def mapLine (H : M3) (l : (ℚ × ℚ) × (ℚ × ℚ)) : (ℚ × ℚ) × (ℚ × ℚ) :=
  (applyH H l.1, applyH H l.2)

/-- The four intersection computations of `run_homography_check`
(`i1`–`i4`): baseline with each inner sideline, net with each inner
sideline, on the mapped lines. -/
def zoneIntersections (H : M3) :
    Option (ℤ × ℤ) × Option (ℤ × ℤ) × Option (ℤ × ℤ) × Option (ℤ × ℤ) :=
  let bl := mapLine H baseline_bottom
  let nt := mapLine H net
  let li := mapLine H left_inner_line
  let ri := mapLine H right_inner_line
  (line_intersection bl.1 bl.2 li.1 li.2,
   line_intersection bl.1 bl.2 ri.1 ri.2,
   line_intersection nt.1 nt.2 li.1 li.2,
   line_intersection nt.1 nt.2 ri.1 ri.2)

/-- `intersection_pts`: the IN-zone polygon `[i1, i2, i4, i3]` when all
four intersections exist, `None` otherwise (`if all([i1,i2,i3,i4])`). -/
def computeZone (H : M3) : Option (List (ℤ × ℤ)) :=
  match zoneIntersections H with
  | (some i1, some i2, some i3, some i4) => some [i1, i2, i4, i3]
  | _ => none

/-! ### Point-in-polygon -/

/-- Edge list of a polygon: each vertex paired with its cyclic
successor. -/
def polyEdges (poly : List (ℤ × ℤ)) : List ((ℤ × ℤ) × (ℤ × ℤ)) :=
  poly.zip (poly.rotate 1)

/-- Whether `p` lies on the closed segment from `a` to `b`:
collinear and within the bounding box. -/
def onSegment (a b p : ℤ × ℤ) : Bool :=
  (b.1 - a.1) * (p.2 - a.2) - (b.2 - a.2) * (p.1 - a.1) = 0 &&
  min a.1 b.1 ≤ p.1 && p.1 ≤ max a.1 b.1 &&
  min a.2 b.2 ≤ p.2 && p.2 ≤ max a.2 b.2

/-- Whether `p` lies on the boundary of the polygon. -/
def onBoundary (poly : List (ℤ × ℤ)) (p : ℤ × ℤ) : Bool :=
  (polyEdges poly).any (fun e => onSegment e.1 e.2 p)

/-- Whether the horizontal ray from `p` toward `+∞` crosses the edge
from `a` to `b` (half-open rule, division-free form). -/
def rayCrosses (a b p : ℤ × ℤ) : Bool :=
  let cr := (b.1 - a.1) * (p.2 - a.2) - (b.2 - a.2) * (p.1 - a.1)
  (a.2 ≤ p.2 && p.2 < b.2 && 0 < cr) || (b.2 ≤ p.2 && p.2 < a.2 && cr < 0)

/-- Even–odd interior test: odd number of ray crossings. -/
def insideParity (poly : List (ℤ × ℤ)) (p : ℤ × ℤ) : Bool :=
  ((polyEdges poly).countP (fun e => rayCrosses e.1 e.2 p)) % 2 = 1

/-- Modelled from the spec: `cv2.pointPolygonTest(poly, point, False)`
(OpenCV is external to the repository) — returns a positive value for a
point strictly inside the polygon, zero for a point on an edge, and a
negative value for a point outside. -/
def pointPolygonTest (poly : List (ℤ × ℤ)) (p : ℤ × ℤ) : ℤ :=
  if onBoundary poly p then 0
  else if insideParity poly p then 1
  else -1

/-- `point_in_polygon(point, polygon)`: the repository's containment
test, `cv2.pointPolygonTest(poly, point, False) >= 0`. -/
def point_in_polygon (p : ℤ × ℤ) (poly : List (ℤ × ℤ)) : Bool :=
  pointPolygonTest poly p ≥ 0

/-! ### The annotation loop of `run_homography_check` -/

/-- State of the frame-processing loop: the frames at which an IN/OUT
verdict has been computed, the `show_result` / `in_zone` flags, and a
pending exception (a raised Python error, which aborts the loop and is
converted to a failure return by the enclosing `except`). -/
structure LoopState where
  verdictFrames : List ℕ
  show_result : Bool
  in_zone : Bool
  err : Option String
deriving DecidableEq, Repr

/-- The loop's initial state (`show_result = False`, `in_zone = False`). -/
def initLoopState : LoopState := ⟨[], false, false, none⟩

/-- One iteration of the frame loop at frame index `i`.  Mirrors
`run_homography_check`: frames below `draw_overlay_start = landing_frame`
are written unchanged; at `frame_idx == landing_frame` (with
`show_result` still false) the verdict `point_in_polygon(landing_point,
intersection_pts)` is computed once — when `intersection_pts` is `None`
this raises (`np.array(None, ...)`), modelled by setting `err`. -/
def loopStep (lf : ℕ) (lp : ℤ × ℤ) (pts : Option (List (ℤ × ℤ)))
    (st : LoopState) (i : ℕ) : LoopState :=
  if st.err.isSome then st
  else if lf ≤ i then
    if i = lf ∧ st.show_result = false then
      match pts with
      | none => { st with err := some "point_in_polygon failed: polygon is None" }
      | some poly =>
          { st with verdictFrames := st.verdictFrames ++ [i],
                    show_result := true,
                    in_zone := point_in_polygon lp poly }
    else st
  else st

/-- The whole frame loop over a video of `n` frames. -/
def annotationLoop (n lf : ℕ) (lp : ℤ × ℤ) (pts : Option (List (ℤ × ℤ))) :
    LoopState :=
  (List.range n).foldl (loopStep lf lp pts) initLoopState

/-- The failure message of `run_homography_check` when
`get_landing_point` returns `None`. -/
def landingFailMsg : String :=
  "No valid landing point found in CSV. Cannot determine IN/OUT."

/-- The decision core of `run_homography_check` on a video of `n`
frames: landing-point detection, zone construction from the homography
`H`, then the annotation loop.  `.error` is the `(False, message, ...)`
return; `.ok (some v)` is a success in which the verdict `v` was
computed; `.ok none` is a success in which the landing frame was never
reached. -/
def runHomographyCheck (track : List Sample) (hits : List ℕ) (H : M3)
    (n : ℕ) : Except String (Option Bool) :=
  match getLandingPointFromHits track hits with
  | none => .error landingFailMsg
  | some (lp, lf) =>
      let st := annotationLoop n lf lp (computeZone H)
      match st.err with
      | some e => .error e
      | none => .ok (if st.show_result then some st.in_zone else none)

/-! ### The orchestrator `run_inference_task` of `app.py` -/

/-- Outcome of one pipeline stage as observed by `run_inference_task`:
either the stage thread stored an exception, or the stage returned
`success = False` with an error message, or it succeeded with an output
path. -/
inductive StageOutcome where
  | raised (e : String)
  | failed (msg : String)
  | ok (path : String)
deriving DecidableEq, Repr

/-- Whether a stage outcome is a failure (exception or `False` return). -/
def StageOutcome.isFailure : StageOutcome → Bool
  | .raised _ => true
  | .failed _ => true
  | .ok _ => false

/-- The global `inference_status` record of `app.py`. -/
structure JobRecord where
  status : String
  output_url : Option String
  output_2d_url : Option String
  output_2d_zoom_url : Option String
  output_replay_url : Option String
  message : Option String
deriving DecidableEq, Repr

/-- `runtime_msg` on failure paths:
`f"Failed after {minutes}m {seconds}s"` for `t` elapsed seconds. -/
def runtimeFailMsg (t : ℕ) : String :=
  "Failed after " ++ toString (t / 60) ++ "m " ++ toString (t % 60) ++ "s"

/-- `runtime_msg` on the success path: `f"Total runtime: {m}m {s}s"`. -/
def runtimeOkMsg (t : ℕ) : String :=
  "Total runtime: " ++ toString (t / 60) ++ "m " ++ toString (t % 60) ++ "s"

/-- The suffix appended to an error message when the slow-motion
fallback was produced. -/
def fallbackSuffix (fb : Option String) : String :=
  if fb.isSome then " Showing slow-motion video instead." else ""

/-- The error `inference_status` record built on every terminal failure
path: fallback path as `output_url`, all verdict artifacts `None`, and
the composed message `base ++ ". " ++ runtime ++ suffix`. -/
def errorRecord (base : String) (fb : Option String) (t : ℕ) : JobRecord where
  status := "error"
  output_url := fb
  output_2d_url := none
  output_2d_zoom_url := none
  output_replay_url := none
  message := some (base ++ ". " ++ runtimeFailMsg t ++ fallbackSuffix fb)

/-- The decision structure of `run_inference_task`: check the TFLite
stage outcome, then the homography stage outcome, composing the final
`inference_status` record.  `fb` is the result of the attempted
slow-motion fallback (`None` when its rendering failed), `arts` the
homography stage's 2D/zoom/replay artifact paths, `t` the total elapsed
seconds.  Exceptions from either stage thread are re-raised and caught
by the outer `except`, which formats `str(e)` directly. -/
def runInferenceTask (tflite homog : StageOutcome) (fb : Option String)
    (arts : Option String × Option String × Option String) (t : ℕ) :
    JobRecord :=
  match tflite with
  | .raised e => errorRecord e fb t
  | .failed m => errorRecord ("TFLite inference failed: " ++ m) fb t
  | .ok tflitePath =>
      match homog with
      | .raised e => errorRecord e fb t
      | .failed m => errorRecord ("Homography check failed: " ++ m) fb t
      | .ok p =>
          { status := "complete"
            output_url := some (if p ≠ "" then p else tflitePath)
            output_2d_url := arts.1
            output_2d_zoom_url := arts.2.1
            output_replay_url := arts.2.2
            message := some ("Line calling process complete. " ++ runtimeOkMsg t) }

/-- The terminal statuses of the job state machine. -/
def terminalStatuses : List String := ["complete", "error"]

/-! ### The track producer `run_inference_on_video` -/

/-- Modelled from the spec: the thresholded heatmap handed to
`get_object_center` (the TFLite network and `cv2.findContours` are
external); a detection is abstracted as the pixel set of the selected
largest contour, and an empty list is the empty heatmap
(`np.sum(h_pred) == 0`). -/
def get_object_center (lit : List (ℕ × ℕ)) : ℕ × ℕ :=
  match lit with
  | [] => (0, 0)
  | q :: rest =>
      let xs := (q :: rest).map Prod.fst
      let ys := (q :: rest).map Prod.snd
      let x0 := xs.foldl min q.1
      let y0 := ys.foldl min q.2
      let w := xs.foldl max q.1 - x0 + 1
      let h := ys.foldl max q.2 - y0 + 1
      (x0 + w / 2, y0 + h / 2)

/-- The visibility flag of `_postprocess_frame`:
`vis = 1 if cx_pred > 0 or cy_pred > 0 else 0`, computed on model
heatmap coordinates. -/
def visOf (lit : List (ℕ × ℕ)) : ℕ :=
  if 0 < (get_object_center lit).1 ∨ 0 < (get_object_center lit).2 then 1 else 0

/-- One row of the output CSV `Frame,Visibility,X,Y`. -/
structure Row where
  frame : ℕ
  vis : ℕ
  x : ℤ
  y : ℤ
deriving DecidableEq, Repr

/-- The CSV row `_postprocess_frame` writes for a predicted frame:
visibility from heatmap coordinates, coordinates scaled back to the
original resolution by `ratio` and truncated with `int()`. -/
def csvRow (r : ℚ) (det : ℕ → List (ℕ × ℕ)) (i : ℕ) : Row where
  frame := i
  vis := visOf (det i)
  x := pyInt (r * (get_object_center (det i)).1)
  y := pyInt (r * (get_object_center (det i)).2)

/-- The nine rows written for one 9-frame sequence starting at global
frame `start`: eight predicted rows and the sequence's last frame, which
is written unconditionally as `f'{idx},0,0,0'`. -/
def seqRows (r : ℚ) (det : ℕ → List (ℕ × ℕ)) (start : ℕ) : List Row :=
  (List.range 8).map (fun f => csvRow r det (start + f)) ++ [⟨start + 8, 0, 0, 0⟩]

/-- The rows written for `k` consecutive full sequences starting at
global frame `start`. -/
def batchRows (r : ℚ) (det : ℕ → List (ℕ × ℕ)) (start k : ℕ) : List Row :=
  (List.range k).flatMap (fun b => seqRows r det (start + 9 * b))

/-- The main loop of `run_inference_on_video` over `remaining` unread
video frames with `frameCount` frames already processed: each iteration
reads up to `9 * 8 = 72` frames; a short read marks the video ended,
only full 9-frame sequences of the final batch are processed and the
rest are discarded. -/
def inferenceRows (r : ℚ) (det : ℕ → List (ℕ × ℕ))
    (frameCount remaining : ℕ) : List Row :=
  if remaining = 0 then []
  else if remaining < 72 then batchRows r det frameCount (remaining / 9)
  else
    batchRows r det frameCount 8 ++
      inferenceRows r det (frameCount + 72) (remaining - 72)
termination_by remaining
decreasing_by omega

/-- The full CSV body produced for a video of `n` frames. -/
def trackCSV (r : ℚ) (det : ℕ → List (ℕ × ℕ)) (n : ℕ) : List Row :=
  inferenceRows r det 0 n

/-! ### Clustering theory -/

theorem clusterGo_ne_nil (t : List ℕ) : ∀ prev cur, clusterGo prev cur t ≠ [] := by
  induction t with
  | nil => intro prev cur; simp [clusterGo]
  | cons h t ih =>
      intro prev cur
      simp only [clusterGo]
      split
      · exact ih h (cur ++ [h])
      · simp

/-- The last cluster produced by `clusterGo` is a suffix of the input
hits with all internal gaps at most 30, and the element just before it
(when any) is more than 30 frames away. -/
theorem clusterGo_last_spec (t : List ℕ) :
    ∀ prev cur, cur ≠ [] → cur.getLast? = some prev →
      List.Chain' (fun a b => b - a ≤ 30) cur →
      ∃ pre,
        cur ++ t = pre ++ (clusterGo prev cur t).getLastD [] ∧
        (clusterGo prev cur t).getLastD [] ≠ [] ∧
        List.Chain' (fun a b => b - a ≤ 30) ((clusterGo prev cur t).getLastD []) ∧
        ∀ a b, pre.getLast? = some a →
          ((clusterGo prev cur t).getLastD []).head? = some b → 30 < b - a := by
  induction t with
  | nil =>
      intro prev cur hne hlast hchain
      have hb : (clusterGo prev cur []).getLastD [] = cur := by
        simp [clusterGo]
      refine ⟨[], by rw [hb]; simp, by rw [hb]; exact hne, by rw [hb]; exact hchain, ?_⟩
      intro a b ha
      simp at ha
  | cons h t ih =>
      intro prev cur hne hlast hchain
      by_cases hg : h - prev ≤ 30
      · simp only [clusterGo, if_pos hg]
        have hne' : cur ++ [h] ≠ [] := by simp
        have hlast' : (cur ++ [h]).getLast? = some h := by
          rw [List.getLast?_append_of_ne_nil _ (by simp)]
          rfl
        have hchain' : List.Chain' (fun a b => b - a ≤ 30) (cur ++ [h]) := by
          rw [List.chain'_append]
          refine ⟨hchain, List.chain'_singleton _, ?_⟩
          intro x hx y hy
          rw [hlast] at hx
          simp only [Option.mem_some_iff] at hx
          simp only [List.head?_cons, Option.mem_some_iff] at hy
          subst hx; subst hy
          exact hg
        obtain ⟨pre, heq, h1, h2, h3⟩ := ih h (cur ++ [h]) hne' hlast' hchain'
        exact ⟨pre, by simpa using heq, h1, h2, h3⟩
      · simp only [clusterGo, if_neg hg]
        obtain ⟨pre', heq', h1', h2', h3'⟩ :=
          ih h [h] (by simp) (by simp) (List.chain'_singleton _)
        have hLne := clusterGo_ne_nil t h [h]
        have hgl : (cur :: clusterGo h [h] t).getLastD [] =
            (clusterGo h [h] t).getLastD [] := by
          cases hcg : clusterGo h [h] t with
          | nil => exact absurd hcg hLne
          | cons a l => simp [List.getLastD_cons]
        refine ⟨cur ++ pre', ?_, by rwa [hgl], by rwa [hgl], ?_⟩
        · rw [hgl, List.append_assoc, ← heq']
          simp
        · intro a b hpa hb
          rw [hgl] at hb
          rcases eq_or_ne pre' [] with hpe | hpe
          · subst hpe
            rw [List.append_nil, hlast] at hpa
            obtain rfl : prev = a := Option.some.inj hpa
            have hLC : (clusterGo h [h] t).getLastD [] = h :: t := by
              simpa using heq'.symm
            rw [hLC] at hb
            obtain rfl : h = b := Option.some.inj (by simpa using hb)
            omega
          · rw [List.getLast?_append_of_ne_nil _ hpe] at hpa
            exact h3' a b hpa hb

theorem landingAt_eq_none_iff (track : List Sample) (i : ℕ) :
    landingAt track i = none ↔ validAt track i = false := by
  unfold landingAt validAt
  cases track.get? i with
  | none => simp
  | some s =>
      cases hx : s.maskedX <;> cases hy : s.maskedY <;> simp [hx, hy]

theorem landingAt_frame (track : List Sample) (i : ℕ) {v : (ℤ × ℤ) × ℕ}
    (h : landingAt track i = some v) : v.2 = i := by
  unfold landingAt at h
  split at h
  · split at h
    · obtain rfl := Option.some.inj h
      rfl
    · exact Option.noConfusion h
  · exact Option.noConfusion h

theorem findSome?_landingAt (track : List Sample) (l : List ℕ) :
    l.findSome? (landingAt track) =
      (l.find? (validAt track)).bind (landingAt track) := by
  induction l with
  | nil => rfl
  | cons i l ih =>
      cases hl : landingAt track i with
      | some v =>
          have hv : validAt track i = true := by
            by_contra hv
            rw [(landingAt_eq_none_iff track i).2 (by simpa using hv)] at hl
            exact Option.noConfusion hl
          simp [List.findSome?_cons, List.find?_cons, hl, hv]
      | none =>
          have hv : validAt track i = false := (landingAt_eq_none_iff track i).1 hl
          simp [List.findSome?_cons, List.find?_cons, hl, hv, ih]

/-- C1: when some frame is flagged, the detector clusters the flagged
indices with the 30-frame gap rule (a gap of exactly 30 extends the
current cluster, a gap above 30 starts a new one — expressed below as:
the selected cluster is a suffix of the flagged indices whose internal
gaps are all ≤ 30 and which is preceded, if by anything, by a gap > 30),
selects the last cluster, and returns the first member of that cluster,
in increasing frame order, whose masked coordinates are not missing,
together with its index. -/
theorem landing_selects_last_cluster (track : List Sample) (hits : List ℕ)
    (hne : hits ≠ []) (hsorted : List.Chain' (· < ·) hits) :
    ∃ pre,
      hits = pre ++ lastCluster hits ∧
      lastCluster hits ≠ [] ∧
      List.Chain' (fun a b => b - a ≤ 30) (lastCluster hits) ∧
      (∀ a b, pre.getLast? = some a → (lastCluster hits).head? = some b →
        30 < b - a) ∧
      List.Chain' (· < ·) (lastCluster hits) ∧
      getLandingPointFromHits track hits =
        ((lastCluster hits).find? (validAt track)).bind (landingAt track) := by
  cases hits with
  | nil => exact absurd rfl hne
  | cons h t =>
      obtain ⟨pre, heq, h1, h2, h3⟩ :=
        clusterGo_last_spec t h [h] (by simp) (by simp) (List.chain'_singleton _)
      have hlc : lastCluster (h :: t) = (clusterGo h [h] t).getLastD [] := rfl
      have heq' : h :: t = pre ++ lastCluster (h :: t) := by
        rw [hlc]; simpa using heq
      refine ⟨pre, heq', by rwa [hlc], by rwa [hlc], by rw [hlc]; exact h3, ?_, ?_⟩
      · exact hsorted.suffix ⟨pre, heq'.symm⟩
      · rw [getLandingPointFromHits, if_neg (by simp)]
        exact findSome?_landingAt track _

/-- C1 witness: the theorem applied to the spec's own example, flagged
frames 10 and 50 (gap 40 > 30). -/
theorem landing_selects_last_cluster_witness :
    ([10, 50] : List ℕ) ≠ [] ∧ List.Chain' (· < ·) ([10, 50] : List ℕ) ∧
    ∃ pre,
      ([10, 50] : List ℕ) = pre ++ lastCluster [10, 50] ∧
      lastCluster [10, 50] ≠ [] ∧
      List.Chain' (fun a b => b - a ≤ 30) (lastCluster [10, 50]) ∧
      (∀ a b, pre.getLast? = some a → (lastCluster [10, 50]).head? = some b →
        30 < b - a) ∧
      List.Chain' (· < ·) (lastCluster [10, 50]) ∧
      getLandingPointFromHits [] [10, 50] =
        ((lastCluster [10, 50]).find? (validAt [])).bind (landingAt []) :=
  ⟨by decide, by norm_num [List.chain'_cons],
    landing_selects_last_cluster [] [10, 50] (by decide)
      (by norm_num [List.chain'_cons])⟩

theorem findSome?_eq_none_forall {α β : Type} (f : α → Option β) (l : List α) :
    l.findSome? f = none ↔ ∀ a ∈ l, f a = none := by
  induction l with
  | nil => simp
  | cons a l ih => cases h : f a <;> simp [List.findSome?_cons, h, ih]

theorem landing_none_iff (track : List Sample) (hits : List ℕ) :
    getLandingPointFromHits track hits = none ↔
      hits = [] ∨ ∀ i ∈ lastCluster hits, validAt track i = false := by
  rcases eq_or_ne hits [] with h | h
  · subst h
    simp [getLandingPointFromHits]
  · rw [getLandingPointFromHits, if_neg (by simpa using h)]
    rw [findSome?_eq_none_forall]
    constructor
    · intro hall
      exact Or.inr fun i hi => (landingAt_eq_none_iff track i).1 (hall i hi)
    · rintro (rfl | hall)
      · exact absurd rfl h
      · exact fun i hi => (landingAt_eq_none_iff track i).2 (hall i hi)

/-- C4: the landing detector fails exactly when no frame is flagged or
no member of the last cluster has a non-missing position; on that
failure `run_homography_check` returns the `NoLandingPoint` failure
message for a track of any length, and the orchestrator turns the
stage-2 failure into the terminal `error` job state (no retry path
exists: the record is final). -/
theorem landing_failure_terminal (track : List Sample) (hits : List ℕ) :
    (getLandingPointFromHits track hits = none ↔
      hits = [] ∨ ∀ i ∈ lastCluster hits, validAt track i = false) ∧
    (getLandingPointFromHits track hits = none →
      ∀ (H : M3) (n : ℕ) (path : String) (fb : Option String)
        (arts : Option String × Option String × Option String) (t : ℕ),
        runHomographyCheck track hits H n = .error landingFailMsg ∧
        (runInferenceTask (.ok path)
          (.failed landingFailMsg) fb arts t).status = "error" ∧
        (runInferenceTask (.ok path)
          (.failed landingFailMsg) fb arts t).status ∈ terminalStatuses) := by
  refine ⟨landing_none_iff track hits, ?_⟩
  intro hn H n path fb arts t
  refine ⟨?_, rfl, by simp [terminalStatuses, runInferenceTask, errorRecord]⟩
  rw [runHomographyCheck, hn]

/-- C4 witness: the empty track with no flagged frame. -/
theorem landing_failure_terminal_witness :
    getLandingPointFromHits [] [] = none ∧
    runHomographyCheck [] [] id3 5 = .error landingFailMsg ∧
    (runInferenceTask (.ok "p") (.failed landingFailMsg) none
      (none, none, none) 61).status = "error" := by
  have h := (landing_failure_terminal [] []).2 rfl id3 5 "p" none
    (none, none, none) 61
  exact ⟨rfl, h.1, h.2.1⟩

/-! ### Smoothing (C2) -/

/-- The non-missing masked coordinates inside the centered 7-frame
window around frame `i`, stated declaratively over frame indices
(`i − 3 ≤ j ≤ i + 3`, clipped to the track). -/
def specWindowVals (track : List Sample) (f : Sample → Option ℚ) (i : ℕ) :
    List ℚ :=
  ((List.range track.length).filter
      (fun j => decide (i ≤ j + 3 ∧ j ≤ i + 3))).filterMap
    (fun j => (track.get? j).bind f)

/-- The spec-side smoothed value at frame `i`: the mean of the
non-missing window members, missing when there are none. -/
def specSmooth (track : List Sample) (f : Sample → Option ℚ) (i : ℕ) :
    Option ℚ :=
  let w := specWindowVals track f i
  if w.isEmpty then none else some (w.sum / w.length)

theorem filter_range_interval (n a b : ℕ) :
    (List.range n).filter (fun j => decide (a ≤ j ∧ j < b)) =
      List.range' a (min b n - a) := by
  induction n with
  | zero => simp
  | succ n ih =>
      rw [List.range_succ, List.filter_append, ih]
      by_cases h1 : a ≤ n ∧ n < b
      · have hmin : min b (n + 1) - a = (min b n - a) + 1 := by omega
        rw [hmin]
        simp only [List.filter_cons, List.filter_nil]
        rw [if_pos (by simpa using h1)]
        rw [List.range'_concat]
        have h2 : a + 1 * (min b n - a) = n := by omega
        rw [h2]
      · have hmin : min b (n + 1) - a = min b n - a := by omega
        rw [hmin]
        simp only [List.filter_cons, List.filter_nil]
        rw [if_neg (by simpa using h1)]
        simp

theorem drop_take_eq_map_range' (xs : List (Option ℚ)) (a b : ℕ) :
    (xs.take b).drop a =
      (List.range' a (min b xs.length - a)).map (fun j => xs.getD j none) := by
  apply List.ext_get?
  intro k
  rw [List.get?_drop]
  by_cases hk : k < min b xs.length - a
  · have hab : a + k < b := by omega
    rw [List.get?_take hab]
    rw [List.get?_map]
    rw [List.get?_range' _ _ hk]
    rw [Option.map_some']
    rw [List.getD_eq_get?]
    simp only [one_mul]
    cases h : xs.get? (a + k) with
    | none => exact absurd (List.get?_eq_none.mp h) (by omega)
    | some v => rfl
  · rw [List.get?_map]
    have h1 : (List.range' a (min b xs.length - a)).get? k = none := by
      apply List.get?_eq_none.mpr
      simpa using hk
    rw [h1]
    by_cases hb : a + k < b
    · have hn : xs.length ≤ a + k := by omega
      rw [List.get?_take hb]
      exact List.get?_eq_none.mpr hn
    · have hl : (xs.take b).length ≤ a + k := by
        rw [List.length_take]
        omega
      exact List.get?_eq_none.mpr hl

/-- The filtered non-missing window values computed by `rollingMean7`
agree with the declaratively stated window of `specWindowVals`. -/
theorem window7_filterMap (track : List Sample) (f : Sample → Option ℚ)
    (i : ℕ) :
    (window7 (track.map f) i).filterMap id = specWindowVals track f i := by
  rw [window7, drop_take_eq_map_range', ← filter_range_interval]
  rw [List.length_map]
  rw [List.filter_congr (q := fun j => decide (i ≤ j + 3 ∧ j ≤ i + 3))
    (by intro j hj; simp only [decide_eq_decide]; omega)]
  rw [List.filterMap_map]
  apply List.filterMap_congr
  intro j hj
  have hjn : j < track.length := List.mem_range.mp (List.mem_of_mem_filter hj)
  simp only [Function.comp]
  rw [List.getD_eq_get?, List.get?_map]
  cases h : track.get? j with
  | none => exact absurd (List.get?_eq_none.mp h) (by omega)
  | some s => rfl

/-- C2 (amended): for every frame, the smoothed coordinate equals the
mean of the **non-missing** coordinates inside the centered 7-frame
window (shortened at the track boundaries); the output is missing
exactly when every window member is missing — a missing input whose
window holds any visible neighbour is averaged over the remaining
members, not propagated. -/
theorem smoothing_is_window_mean (track : List Sample) (i : ℕ)
    (hi : i < track.length) :
    (smoothX track).get? i = some (specSmooth track Sample.maskedX i) ∧
    (smoothY track).get? i = some (specSmooth track Sample.maskedY i) ∧
    (specSmooth track Sample.maskedX i = none ↔
      ∀ j, i ≤ j + 3 → j ≤ i + 3 → j < track.length →
        (track.get? j).bind Sample.maskedX = none) := by
  have key : ∀ f : Sample → Option ℚ,
      (rollingMean7 (track.map f)).get? i =
        some (specSmooth track f i) := by
    intro f
    rw [rollingMean7, List.get?_map]
    rw [List.get?_range (by simpa using hi)]
    rw [Option.map_some']
    rw [specSmooth, window7_filterMap]
  refine ⟨key Sample.maskedX, key Sample.maskedY, ?_⟩
  rw [specSmooth]
  constructor
  · intro h j h1 h2 h3
    have hempty : specWindowVals track Sample.maskedX i = [] := by
      by_contra hne
      rw [if_neg (by simpa using hne)] at h
      exact Option.noConfusion h
    rw [specWindowVals, List.filterMap_eq_nil] at hempty
    exact hempty j (by
      rw [List.mem_filter]
      exact ⟨List.mem_range.mpr h3, by simpa using ⟨h1, h2⟩⟩)
  · intro h
    rw [if_pos]
    rw [List.isEmpty_iff]
    rw [specWindowVals, List.filterMap_eq_nil]
    intro j hj
    have hjr := List.mem_range.mp (List.mem_of_mem_filter hj)
    have := List.of_mem_filter hj
    simp only [decide_eq_true_eq] at this
    exact h j this.1 this.2 hjr

/-- C2 counterexample: in the track
`[(visible, 0, 0), (invisible), (visible, 6, 6)]` frame 1's input
coordinate is missing, yet its smoothed X output is `3` (the mean of the
remaining window members `0` and `6`), not missing — refuting "missing
inputs propagate as missing outputs". -/
theorem smoothing_missing_propagation_fails :
    (([⟨true, 0, 0⟩, ⟨false, 5, 5⟩, ⟨true, 6, 6⟩] : List Sample).get? 1).bind
        Sample.maskedX = none ∧
    (smoothX [⟨true, 0, 0⟩, ⟨false, 5, 5⟩, ⟨true, 6, 6⟩]).get? 1 =
      some (some 3) := by
  constructor
  · rfl
  · norm_num [smoothX, rollingMean7, window7, Sample.maskedX, List.range_succ,
      List.filterMap]
    intro h
    exact absurd h (Option.some_ne_none _)

/-- C2 witness for the amended claim, on the same concrete track. -/
theorem smoothing_is_window_mean_witness :
    (1 : ℕ) < ([⟨true, 0, 0⟩, ⟨false, 5, 5⟩, ⟨true, 6, 6⟩] : List Sample).length ∧
    ((smoothX [⟨true, 0, 0⟩, ⟨false, 5, 5⟩, ⟨true, 6, 6⟩]).get? 1 =
        some (specSmooth [⟨true, 0, 0⟩, ⟨false, 5, 5⟩, ⟨true, 6, 6⟩]
          Sample.maskedX 1) ∧
      (smoothY [⟨true, 0, 0⟩, ⟨false, 5, 5⟩, ⟨true, 6, 6⟩]).get? 1 =
        some (specSmooth [⟨true, 0, 0⟩, ⟨false, 5, 5⟩, ⟨true, 6, 6⟩]
          Sample.maskedY 1) ∧
      (specSmooth [⟨true, 0, 0⟩, ⟨false, 5, 5⟩, ⟨true, 6, 6⟩]
          Sample.maskedX 1 = none ↔
        ∀ j, 1 ≤ j + 3 → j ≤ 1 + 3 →
          j < ([⟨true, 0, 0⟩, ⟨false, 5, 5⟩, ⟨true, 6, 6⟩] : List Sample).length →
          (([⟨true, 0, 0⟩, ⟨false, 5, 5⟩, ⟨true, 6, 6⟩] : List Sample).get? j).bind
            Sample.maskedX = none)) :=
  ⟨by decide,
    smoothing_is_window_mean [⟨true, 0, 0⟩, ⟨false, 5, 5⟩, ⟨true, 6, 6⟩] 1
      (by decide)⟩

/-! ### The annotation loop: verdict timing (C5) and degeneracy (C3) -/

theorem loopStep_below (lf : ℕ) (lp : ℤ × ℤ) (pts : Option (List (ℤ × ℤ)))
    (st : LoopState) (i : ℕ) (h : i < lf) : loopStep lf lp pts st i = st := by
  rw [loopStep.eq_def]
  rcases he : st.err with _ | e
  · rw [if_neg (by simp [he])]
    rw [if_neg (by omega)]
  · rw [if_pos (by simp [he])]

theorem loopStep_stable (lf : ℕ) (lp : ℤ × ℤ) (pts : Option (List (ℤ × ℤ)))
    (st : LoopState) (i : ℕ)
    (h : st.err.isSome = true ∨ st.show_result = true) :
    loopStep lf lp pts st i = st := by
  rw [loopStep.eq_def]
  rcases h with h | h
  · rw [if_pos h]
  · rcases he : st.err with _ | e
    · rw [if_neg (by simp [he])]
      split
      · rw [if_neg (by simp [h])]
      · rfl
    · rw [if_pos (by simp [he])]

theorem foldl_loopStep_below (lf : ℕ) (lp : ℤ × ℤ)
    (pts : Option (List (ℤ × ℤ))) :
    ∀ (l : List ℕ) (st : LoopState), (∀ i ∈ l, i < lf) →
      l.foldl (loopStep lf lp pts) st = st := by
  intro l
  induction l with
  | nil => intro st _; rfl
  | cons i l ih =>
      intro st h
      rw [List.foldl_cons, loopStep_below _ _ _ _ _ (h i (by simp))]
      exact ih st fun j hj => h j (by simp [hj])

theorem foldl_loopStep_stable (lf : ℕ) (lp : ℤ × ℤ)
    (pts : Option (List (ℤ × ℤ))) :
    ∀ (l : List ℕ) (st : LoopState),
      st.err.isSome = true ∨ st.show_result = true →
      l.foldl (loopStep lf lp pts) st = st := by
  intro l
  induction l with
  | nil => intro st _; rfl
  | cons i l ih =>
      intro st h
      rw [List.foldl_cons, loopStep_stable _ _ _ _ _ h]
      exact ih st h

theorem annotationLoop_eq (n lf : ℕ) (lp : ℤ × ℤ)
    (pts : Option (List (ℤ × ℤ))) (h : lf < n) :
    annotationLoop n lf lp pts =
      loopStep lf lp pts initLoopState lf := by
  rw [annotationLoop]
  have hsplit : n = lf + (n - lf - 1 + 1) := by omega
  rw [hsplit, List.range_add, List.foldl_append]
  rw [foldl_loopStep_below _ _ _ _ _ (fun i hi => List.mem_range.mp hi)]
  rw [List.range_succ_eq_map]
  simp only [List.map_cons, Nat.add_zero, List.foldl_cons, List.map_map]
  apply foldl_loopStep_stable
  rw [loopStep.eq_def]
  simp only [initLoopState]
  rw [if_neg (by simp)]
  rw [if_pos (le_refl lf)]
  rw [if_pos (by simp)]
  cases pts <;> simp

theorem find?_range_ge (lf n : ℕ) (h : lf < n) :
    (List.range n).find? (fun i => decide (lf ≤ i)) = some lf := by
  induction n with
  | zero => omega
  | succ n ih =>
      rw [List.range_succ, List.find?_append]
      rcases Nat.lt_or_ge lf n with h1 | h1
      · rw [ih h1]
        rfl
      · have hlf : lf = n := by omega
        subst hlf
        have hnone : (List.range lf).find? (fun i => decide (lf ≤ i)) = none := by
          apply List.find?_eq_none.mpr
          intro i hi
          simp only [decide_eq_true_eq]
          have := List.mem_range.mp hi
          omega
        rw [hnone]
        simp

/-- C5: with a detected landing point and a valid zone polygon, the
annotation loop computes the IN/OUT containment verdict exactly once,
at frame `landing_frame` — which is the first processed frame index
`≥ landing_frame` — and at no other frame. -/
theorem verdict_computed_once (n lf : ℕ) (lp : ℤ × ℤ)
    (poly : List (ℤ × ℤ)) (h : lf < n) :
    (annotationLoop n lf lp (some poly)).verdictFrames = [lf] ∧
    (annotationLoop n lf lp (some poly)).show_result = true ∧
    (annotationLoop n lf lp (some poly)).in_zone = point_in_polygon lp poly ∧
    (List.range n).find? (fun i => decide (lf ≤ i)) = some lf := by
  have he := annotationLoop_eq n lf lp (some poly) h
  have hstep : loopStep lf lp (some poly) initLoopState lf =
      ⟨[lf], true, point_in_polygon lp poly, none⟩ := by
    rw [loopStep.eq_def]
    simp [initLoopState]
  rw [he, hstep]
  exact ⟨rfl, rfl, rfl, find?_range_ge lf n h⟩

/-- C5 witness: a 10-frame video with landing frame 4 and a concrete
square zone. -/
theorem verdict_computed_once_witness :
    (4 : ℕ) < 10 ∧
    (annotationLoop 10 4 (1, 1) (some [(0, 0), (4, 0), (4, 4), (0, 4)])).verdictFrames
      = [4] ∧
    (annotationLoop 10 4 (1, 1)
        (some [(0, 0), (4, 0), (4, 4), (0, 4)])).show_result = true ∧
    (annotationLoop 10 4 (1, 1) (some [(0, 0), (4, 0), (4, 4), (0, 4)])).in_zone
      = point_in_polygon (1, 1) [(0, 0), (4, 0), (4, 4), (0, 4)] ∧
    (List.range 10).find? (fun i => decide (4 ≤ i)) = some 4 :=
  ⟨by decide,
    verdict_computed_once 10 4 (1, 1) [(0, 0), (4, 0), (4, 4), (0, 4)]
      (by decide)⟩

theorem lastCluster_suffix (hits : List ℕ) (h : hits ≠ []) :
    ∃ pre, hits = pre ++ lastCluster hits := by
  cases hits with
  | nil => exact absurd rfl h
  | cons a t =>
      obtain ⟨pre, heq, _, _, _⟩ :=
        clusterGo_last_spec t a [a] (by simp) (by simp) (List.chain'_singleton _)
      exact ⟨pre, heq⟩

theorem mem_of_mem_lastCluster {hits : List ℕ} {i : ℕ}
    (h : i ∈ lastCluster hits) : i ∈ hits := by
  cases hits with
  | nil =>
      rw [lastCluster, clusterHits] at h
      simpa using h
  | cons a t =>
      obtain ⟨pre, heq⟩ := lastCluster_suffix (a :: t) (by simp)
      rw [heq]
      exact List.mem_append_right _ h

theorem landing_frame_mem {track : List Sample} {hits : List ℕ}
    {lp : ℤ × ℤ} {lf : ℕ}
    (h : getLandingPointFromHits track hits = some (lp, lf)) : lf ∈ hits := by
  rw [getLandingPointFromHits] at h
  split at h
  · exact Option.noConfusion h
  · obtain ⟨i, hi, hf⟩ := List.exists_of_findSome?_eq_some h
    have : lf = i := landingAt_frame track i hf
    subst this
    exact mem_of_mem_lastCluster hi

/-- `H` maps one of the four zone line pairs (baseline × inner sideline,
net × inner sideline) to a pair of parallel lines: the corresponding
`line_intersection` denominator vanishes. -/
def degenerateZone (H : M3) : Prop :=
  interDenom (mapLine H baseline_bottom).1 (mapLine H baseline_bottom).2
      (mapLine H left_inner_line).1 (mapLine H left_inner_line).2 = 0 ∨
  interDenom (mapLine H baseline_bottom).1 (mapLine H baseline_bottom).2
      (mapLine H right_inner_line).1 (mapLine H right_inner_line).2 = 0 ∨
  interDenom (mapLine H net).1 (mapLine H net).2
      (mapLine H left_inner_line).1 (mapLine H left_inner_line).2 = 0 ∨
  interDenom (mapLine H net).1 (mapLine H net).2
      (mapLine H right_inner_line).1 (mapLine H right_inner_line).2 = 0

theorem zoneIntersections_def (H : M3) :
    zoneIntersections H =
      (line_intersection (mapLine H baseline_bottom).1
          (mapLine H baseline_bottom).2 (mapLine H left_inner_line).1
          (mapLine H left_inner_line).2,
       line_intersection (mapLine H baseline_bottom).1
          (mapLine H baseline_bottom).2 (mapLine H right_inner_line).1
          (mapLine H right_inner_line).2,
       line_intersection (mapLine H net).1 (mapLine H net).2
          (mapLine H left_inner_line).1 (mapLine H left_inner_line).2,
       line_intersection (mapLine H net).1 (mapLine H net).2
          (mapLine H right_inner_line).1 (mapLine H right_inner_line).2) := rfl

theorem computeZone_eq_none (H : M3) (h : degenerateZone H) :
    computeZone H = none := by
  rw [computeZone.eq_def, zoneIntersections_def]
  rcases h with h | h | h | h
  · have h1 : line_intersection (mapLine H baseline_bottom).1
        (mapLine H baseline_bottom).2 (mapLine H left_inner_line).1
        (mapLine H left_inner_line).2 = none := by
      rw [line_intersection, if_pos h]
    rw [h1]
  · have h2 : line_intersection (mapLine H baseline_bottom).1
        (mapLine H baseline_bottom).2 (mapLine H right_inner_line).1
        (mapLine H right_inner_line).2 = none := by
      rw [line_intersection, if_pos h]
    rw [h2]
    cases line_intersection (mapLine H baseline_bottom).1
        (mapLine H baseline_bottom).2 (mapLine H left_inner_line).1
        (mapLine H left_inner_line).2 <;> rfl
  · have h3 : line_intersection (mapLine H net).1 (mapLine H net).2
        (mapLine H left_inner_line).1 (mapLine H left_inner_line).2
        = none := by
      rw [line_intersection, if_pos h]
    rw [h3]
    cases line_intersection (mapLine H baseline_bottom).1
        (mapLine H baseline_bottom).2 (mapLine H left_inner_line).1
        (mapLine H left_inner_line).2 <;>
      cases line_intersection (mapLine H baseline_bottom).1
        (mapLine H baseline_bottom).2 (mapLine H right_inner_line).1
        (mapLine H right_inner_line).2 <;> rfl
  · have h4 : line_intersection (mapLine H net).1 (mapLine H net).2
        (mapLine H right_inner_line).1 (mapLine H right_inner_line).2
        = none := by
      rw [line_intersection, if_pos h]
    rw [h4]
    cases line_intersection (mapLine H baseline_bottom).1
        (mapLine H baseline_bottom).2 (mapLine H left_inner_line).1
        (mapLine H left_inner_line).2 <;>
      cases line_intersection (mapLine H baseline_bottom).1
        (mapLine H baseline_bottom).2 (mapLine H right_inner_line).1
        (mapLine H right_inner_line).2 <;>
      cases line_intersection (mapLine H net).1 (mapLine H net).2
        (mapLine H left_inner_line).1 (mapLine H left_inner_line).2 <;> rfl

/-- C3: whenever the homography maps one of the four required template
line pairs to parallel lines, the zone polygon is `None` and the
homography stage returns a failure result carrying an error message —
it neither crashes (the model is a total function returning `.error`)
nor produces an IN/OUT verdict. -/
theorem degenerate_homography_failure (track : List Sample) (hits : List ℕ)
    (H : M3) (n : ℕ) (hdeg : degenerateZone H)
    (hbound : ∀ i ∈ hits, i < n) :
    computeZone H = none ∧
    (∃ e, runHomographyCheck track hits H n = .error e) ∧
    (∀ v, runHomographyCheck track hits H n ≠ .ok (some v)) := by
  have hz := computeZone_eq_none H hdeg
  cases hl : getLandingPointFromHits track hits with
  | none =>
      have hrun : runHomographyCheck track hits H n = .error landingFailMsg := by
        rw [runHomographyCheck.eq_def, hl]
      refine ⟨hz, ⟨landingFailMsg, hrun⟩, ?_⟩
      intro v hv
      rw [hrun] at hv
      exact Except.noConfusion hv
  | some pair =>
      obtain ⟨lp, lf⟩ := pair
      have hlf : lf < n := hbound lf (landing_frame_mem hl)
      have hloop : annotationLoop n lf lp (computeZone H) =
          ⟨[], false, false,
            some "point_in_polygon failed: polygon is None"⟩ := by
        rw [hz, annotationLoop_eq n lf lp none hlf, loopStep.eq_def]
        simp [initLoopState]
      have hrun : runHomographyCheck track hits H n =
          .error "point_in_polygon failed: polygon is None" := by
        rw [runHomographyCheck.eq_def, hl]
        simp only [hloop]
      refine ⟨hz, ⟨_, hrun⟩, ?_⟩
      intro v hv
      rw [hrun] at hv
      exact Except.noConfusion hv

/-- C3 witness: the concrete homography collapsing the court onto the
line `y = x` (every inner sideline maps to a single point), a one-frame
track with a valid landing sample. -/
theorem degenerate_homography_failure_witness :
    degenerateZone ⟨1, 0, 0, 1, 0, 0, 0, 0, 1⟩ ∧
    (∀ i ∈ [0], i < 1) ∧
    (computeZone ⟨1, 0, 0, 1, 0, 0, 0, 0, 1⟩ = none ∧
      (∃ e, runHomographyCheck [⟨true, 2, 2⟩] [0]
        ⟨1, 0, 0, 1, 0, 0, 0, 0, 1⟩ 1 = .error e) ∧
      (∀ v, runHomographyCheck [⟨true, 2, 2⟩] [0]
        ⟨1, 0, 0, 1, 0, 0, 0, 0, 1⟩ 1 ≠ .ok (some v))) := by
  have hdeg : degenerateZone ⟨1, 0, 0, 1, 0, 0, 0, 0, 1⟩ := by
    left
    norm_num [interDenom, mapLine, applyH, baseline_bottom, left_inner_line]
  refine ⟨hdeg, by decide, ?_⟩
  exact degenerate_homography_failure [⟨true, 2, 2⟩] [0]
    ⟨1, 0, 0, 1, 0, 0, 0, 0, 1⟩ 1 hdeg (by decide)

/-! ### Homography round-trip (C7) -/

theorem inv3_mul3 (M : M3) (h : det3 M ≠ 0) : mul3 (inv3 M) M = id3 := by
  ext <;> simp only [mul3, inv3, id3] <;> field_simp <;> (try rw [det3]) <;> ring

/-- C7: for every non-degenerate homography (nonzero determinant), the
computed inverse is the matrix inverse of the forward homography, and
mapping a point through the forward and then the inverse projective
transform returns it exactly, over exact rational arithmetic (for any
point not on the line mapped to infinity). -/
theorem homography_roundtrip (M : M3) (x y : ℚ) (hdet : det3 M ≠ 0)
    (hw : M.m31 * x + M.m32 * y + M.m33 ≠ 0) :
    mul3 (inv3 M) M = id3 ∧ applyH (inv3 M) (applyH M (x, y)) = (x, y) := by
  refine ⟨inv3_mul3 M hdet, ?_⟩
  set w := M.m31 * x + M.m32 * y + M.m33 with hwdef
  set A := M.m11 * x + M.m12 * y + M.m13 with hAdef
  set B := M.m21 * x + M.m22 * y + M.m23 with hBdef
  have hApp : applyH M (x, y) = (A / w, B / w) := rfl
  rw [hApp]
  have hD : (inv3 M).m31 * (A / w) + (inv3 M).m32 * (B / w) + (inv3 M).m33
      = 1 / w := by
    simp only [inv3]
    rw [hAdef, hBdef, hwdef]
    field_simp
    rw [det3]
    ring
  have hN1 : (inv3 M).m11 * (A / w) + (inv3 M).m12 * (B / w) + (inv3 M).m13
      = x / w := by
    simp only [inv3]
    rw [hAdef, hBdef, hwdef]
    field_simp
    rw [det3]
    ring
  have hN2 : (inv3 M).m21 * (A / w) + (inv3 M).m22 * (B / w) + (inv3 M).m23
      = y / w := by
    simp only [inv3]
    rw [hAdef, hBdef, hwdef]
    field_simp
    rw [det3]
    ring
  rw [applyH, hD, hN1, hN2]
  rw [Prod.mk.injEq]
  constructor <;> field_simp

/-- C7 witness: a concrete invertible homography (determinant 5) and the
point `(7, 9)`. -/
theorem homography_roundtrip_witness :
    det3 ⟨2, 1, 3, 0, 1, 4, 1, 0, 2⟩ ≠ 0 ∧
    (⟨2, 1, 3, 0, 1, 4, 1, 0, 2⟩ : M3).m31 * 7 +
      (⟨2, 1, 3, 0, 1, 4, 1, 0, 2⟩ : M3).m32 * 9 +
      (⟨2, 1, 3, 0, 1, 4, 1, 0, 2⟩ : M3).m33 ≠ 0 ∧
    (mul3 (inv3 ⟨2, 1, 3, 0, 1, 4, 1, 0, 2⟩) ⟨2, 1, 3, 0, 1, 4, 1, 0, 2⟩
        = id3 ∧
      applyH (inv3 ⟨2, 1, 3, 0, 1, 4, 1, 0, 2⟩)
        (applyH ⟨2, 1, 3, 0, 1, 4, 1, 0, 2⟩ (7, 9)) = (7, 9)) :=
  ⟨by norm_num [det3], by norm_num,
    homography_roundtrip ⟨2, 1, 3, 0, 1, 4, 1, 0, 2⟩ 7 9
      (by norm_num [det3]) (by norm_num)⟩

/-! ### Point-in-polygon boundary behaviour (C8) -/

/-- C8: the repository containment test
(`cv2.pointPolygonTest(...) >= 0`) returns `True` for a point strictly
inside the polygon, `True` for a point exactly on an edge (the boundary
is counted as inside), and `False` for a point strictly outside. -/
theorem point_in_polygon_boundary_inclusive (poly : List (ℤ × ℤ))
    (p : ℤ × ℤ) :
    (onBoundary poly p = true → point_in_polygon p poly = true) ∧
    (onBoundary poly p = false → insideParity poly p = true →
      point_in_polygon p poly = true) ∧
    (onBoundary poly p = false → insideParity poly p = false →
      point_in_polygon p poly = false) := by
  refine ⟨?_, ?_, ?_⟩
  · intro h1
    rw [point_in_polygon, pointPolygonTest, if_pos h1]
    rfl
  · intro h1 h2
    rw [point_in_polygon, pointPolygonTest, if_neg (by simp [h1]),
      if_pos h2]
    rfl
  · intro h1 h2
    rw [point_in_polygon, pointPolygonTest, if_neg (by simp [h1]),
      if_neg (by simp [h2])]
    rfl

/-- C8 witness: the axis-aligned square `(0,0)–(4,4)`: `(2,2)` is
strictly inside (`True`), `(0,2)` lies on the left edge (`True`),
`(5,5)` is strictly outside (`False`). -/
theorem point_in_polygon_boundary_inclusive_witness :
    onBoundary [(0, 0), (4, 0), (4, 4), (0, 4)] (0, 2) = true ∧
    point_in_polygon (0, 2) [(0, 0), (4, 0), (4, 4), (0, 4)] = true ∧
    onBoundary [(0, 0), (4, 0), (4, 4), (0, 4)] (2, 2) = false ∧
    insideParity [(0, 0), (4, 0), (4, 4), (0, 4)] (2, 2) = true ∧
    point_in_polygon (2, 2) [(0, 0), (4, 0), (4, 4), (0, 4)] = true ∧
    onBoundary [(0, 0), (4, 0), (4, 4), (0, 4)] (5, 5) = false ∧
    insideParity [(0, 0), (4, 0), (4, 4), (0, 4)] (5, 5) = false ∧
    point_in_polygon (5, 5) [(0, 0), (4, 0), (4, 4), (0, 4)] = false :=
  ⟨by decide,
    (point_in_polygon_boundary_inclusive
      [(0, 0), (4, 0), (4, 4), (0, 4)] (0, 2)).1 (by decide),
    by decide, by decide,
    (point_in_polygon_boundary_inclusive
      [(0, 0), (4, 0), (4, 4), (0, 4)] (2, 2)).2.1 (by decide) (by decide),
    by decide, by decide,
    (point_in_polygon_boundary_inclusive
      [(0, 0), (4, 0), (4, 4), (0, 4)] (5, 5)).2.2 (by decide) (by decide)⟩

/-! ### Track-producer visibility (C9) -/

/-- C9: a CSV row records visibility `1` exactly when the predicted
object center has `x > 0` or `y > 0` in model heatmap coordinates;
an empty heatmap yields center `(0, 0)` and visibility `0`, and any
genuine detection whose computed center is exactly `(0, 0)` is likewise
recorded invisible. -/
theorem visibility_iff_positive_center (lit : List (ℕ × ℕ)) (r : ℚ)
    (det : ℕ → List (ℕ × ℕ)) (i : ℕ) :
    ((csvRow r det i).vis = visOf (det i)) ∧
    (visOf lit = 1 ↔
      0 < (get_object_center lit).1 ∨ 0 < (get_object_center lit).2) ∧
    (visOf lit = 0 ↔
      (get_object_center lit).1 = 0 ∧ (get_object_center lit).2 = 0) ∧
    (get_object_center [] = (0, 0) ∧ visOf [] = 0) ∧
    (get_object_center lit = (0, 0) → visOf lit = 0) := by
  refine ⟨rfl, ?_, ?_, ⟨rfl, rfl⟩, ?_⟩
  · rw [visOf]
    split
    · simpa
    · next hc => simpa using hc
  · rw [visOf]
    split
    · next hc =>
        constructor
        · intro h
          exact absurd h (by norm_num)
        · intro h
          omega
    · next hc =>
        constructor
        · intro _
          omega
        · intro _
          rfl
  · intro h
    rw [visOf, h]
    norm_num

/-- C9 witness: a single-pixel detection exactly at heatmap pixel
`(0, 0)` is recorded invisible. -/
theorem visibility_iff_positive_center_witness :
    get_object_center [((0 : ℕ), (0 : ℕ))] = (0, 0) ∧
    visOf [((0 : ℕ), (0 : ℕ))] = 0 ∧
    (csvRow 1 (fun _ => [((0 : ℕ), (0 : ℕ))]) 0).vis =
      visOf [((0 : ℕ), (0 : ℕ))] := by
  have h := visibility_iff_positive_center [((0 : ℕ), (0 : ℕ))] 1
    (fun _ => [((0 : ℕ), (0 : ℕ))]) 0
  exact ⟨by decide, h.2.2.2.2 (by decide), h.1⟩

/-! ### Orchestrator failure paths (C6) -/

/-- C6: on every terminal failure path (stage-1 failure or exception,
stage-2 failure or exception), the final record is the `error` state
whose `output_url` is exactly the result of the attempted slow-motion
fallback (so the fallback is consulted before the record is finalised,
and a failed fallback leaves `error` with no output); the message is the
failure reason followed by the elapsed-time clause, and varying the
fallback result changes only the trailing fallback suffix — never the
status or the failure reason (`base`). -/
theorem orchestrator_failure_paths (tflite homog : StageOutcome)
    (fb : Option String)
    (arts : Option String × Option String × Option String) (t : ℕ)
    (h : tflite.isFailure = true ∨ homog.isFailure = true) :
    (runInferenceTask tflite homog fb arts t).status = "error" ∧
    (runInferenceTask tflite homog fb arts t).output_url = fb ∧
    (runInferenceTask tflite homog fb arts t).output_2d_url = none ∧
    (runInferenceTask tflite homog fb arts t).output_2d_zoom_url = none ∧
    (runInferenceTask tflite homog fb arts t).output_replay_url = none ∧
    ∃ base,
      (runInferenceTask tflite homog fb arts t).message =
        some (base ++ ". " ++ runtimeFailMsg t ++ fallbackSuffix fb) ∧
      ∀ fb',
        (runInferenceTask tflite homog fb' arts t).message =
          some (base ++ ". " ++ runtimeFailMsg t ++ fallbackSuffix fb') ∧
        (runInferenceTask tflite homog fb' arts t).status = "error" ∧
        (runInferenceTask tflite homog fb' arts t).output_url = fb' := by
  cases tflite with
  | raised e =>
      exact ⟨rfl, rfl, rfl, rfl, rfl, e, rfl, fun fb' => ⟨rfl, rfl, rfl⟩⟩
  | failed m =>
      exact ⟨rfl, rfl, rfl, rfl, rfl, "TFLite inference failed: " ++ m, rfl,
        fun fb' => ⟨rfl, rfl, rfl⟩⟩
  | ok p =>
      cases homog with
      | raised e =>
          exact ⟨rfl, rfl, rfl, rfl, rfl, e, rfl, fun fb' => ⟨rfl, rfl, rfl⟩⟩
      | failed m =>
          exact ⟨rfl, rfl, rfl, rfl, rfl, "Homography check failed: " ++ m,
            rfl, fun fb' => ⟨rfl, rfl, rfl⟩⟩
      | ok q =>
          rcases h with h | h <;> exact absurd h (by simp [StageOutcome.isFailure])

/-- C6 witness: a stage-2 failure with a failed fallback rendering,
125 elapsed seconds. -/
theorem orchestrator_failure_paths_witness :
    ((StageOutcome.ok "vid").isFailure = true ∨
      (StageOutcome.failed "no hits").isFailure = true) ∧
    ((runInferenceTask (.ok "vid") (.failed "no hits") none
        (none, none, none) 125).status = "error" ∧
      (runInferenceTask (.ok "vid") (.failed "no hits") none
        (none, none, none) 125).output_url = none ∧
      (runInferenceTask (.ok "vid") (.failed "no hits") none
        (none, none, none) 125).output_2d_url = none ∧
      (runInferenceTask (.ok "vid") (.failed "no hits") none
        (none, none, none) 125).output_2d_zoom_url = none ∧
      (runInferenceTask (.ok "vid") (.failed "no hits") none
        (none, none, none) 125).output_replay_url = none ∧
      ∃ base,
        (runInferenceTask (.ok "vid") (.failed "no hits") none
          (none, none, none) 125).message =
          some (base ++ ". " ++ runtimeFailMsg 125 ++ fallbackSuffix none) ∧
        ∀ fb',
          (runInferenceTask (.ok "vid") (.failed "no hits") fb'
            (none, none, none) 125).message =
            some (base ++ ". " ++ runtimeFailMsg 125 ++ fallbackSuffix fb') ∧
          (runInferenceTask (.ok "vid") (.failed "no hits") fb'
            (none, none, none) 125).status = "error" ∧
          (runInferenceTask (.ok "vid") (.failed "no hits") fb'
            (none, none, none) 125).output_url = fb') :=
  ⟨Or.inr rfl,
    orchestrator_failure_paths (.ok "vid") (.failed "no hits") none
      (none, none, none) 125 (Or.inr rfl)⟩

/-! ### Track-producer row structure (C10) -/

theorem seqRows_frames (r : ℚ) (det : ℕ → List (ℕ × ℕ)) (s : ℕ) :
    (seqRows r det s).map Row.frame = (List.range 9).map (s + ·) := by
  simp [seqRows, csvRow, List.range_succ, Function.comp]

theorem batchRows_frames (r : ℚ) (det : ℕ → List (ℕ × ℕ)) :
    ∀ (k s : ℕ), (batchRows r det s k).map Row.frame =
      (List.range (9 * k)).map (s + ·) := by
  intro k
  induction k with
  | zero =>
      intro s
      simp [batchRows]
  | succ k ih =>
      intro s
      rw [batchRows, List.range_succ, List.flatMap_append, List.map_append]
      rw [show (List.range k).flatMap (fun b => seqRows r det (s + 9 * b)) =
        batchRows r det s k from rfl]
      rw [ih s]
      simp only [List.flatMap_cons, List.flatMap_nil, List.append_nil]
      rw [seqRows_frames]
      have h9 : 9 * (k + 1) = 9 * k + 9 := by ring
      rw [h9, List.range_add, List.map_append, List.map_map]
      simp [Function.comp, Nat.add_assoc]

theorem inferenceRows_frames (r : ℚ) (det : ℕ → List (ℕ × ℕ)) :
    ∀ (m c : ℕ), (inferenceRows r det c m).map Row.frame =
      (List.range (9 * (m / 9))).map (c + ·) := by
  intro m
  induction m using Nat.strong_induction_on with
  | _ m ih =>
      intro c
      rw [inferenceRows]
      by_cases h0 : m = 0
      · subst h0
        simp
      · rw [if_neg h0]
        by_cases h72 : m < 72
        · rw [if_pos h72, batchRows_frames]
        · rw [if_neg h72, List.map_append, batchRows_frames,
            ih (m - 72) (by omega) (c + 72)]
          have h9 : 9 * (m / 9) = 72 + 9 * ((m - 72) / 9) := by omega
          rw [h9, List.range_add, List.map_append, List.map_map]
          simp [Function.comp, Nat.add_assoc]

theorem mem_seqRows {r : ℚ} {det : ℕ → List (ℕ × ℕ)} {s : ℕ} {row : Row}
    (h : row ∈ seqRows r det s) :
    (∃ f < 8, row = csvRow r det (s + f)) ∨ row = ⟨s + 8, 0, 0, 0⟩ := by
  rw [seqRows, List.mem_append] at h
  rcases h with h | h
  · obtain ⟨f, hf, rfl⟩ := List.mem_map.mp h
    exact Or.inl ⟨f, List.mem_range.mp hf, rfl⟩
  · right
    simpa using h

theorem batchRows_ninth (r : ℚ) (det : ℕ → List (ℕ × ℕ)) (c k : ℕ)
    (hc : 9 ∣ c) (row : Row) (h : row ∈ batchRows r det c k)
    (h9 : row.frame % 9 = 8) : row.vis = 0 ∧ row.x = 0 ∧ row.y = 0 := by
  rw [batchRows] at h
  obtain ⟨b, hb, hrow⟩ := List.mem_flatMap.mp h
  rcases mem_seqRows hrow with ⟨f, hf, rfl⟩ | rfl
  · exfalso
    obtain ⟨q, rfl⟩ := hc
    simp only [csvRow] at h9
    omega
  · exact ⟨rfl, rfl, rfl⟩

theorem inferenceRows_ninth (r : ℚ) (det : ℕ → List (ℕ × ℕ)) :
    ∀ (m c : ℕ), 9 ∣ c → ∀ row ∈ inferenceRows r det c m,
      row.frame % 9 = 8 → row.vis = 0 ∧ row.x = 0 ∧ row.y = 0 := by
  intro m
  induction m using Nat.strong_induction_on with
  | _ m ih =>
      intro c hc row hrow h9
      rw [inferenceRows] at hrow
      by_cases h0 : m = 0
      · rw [if_pos h0] at hrow
        exact absurd hrow (List.not_mem_nil row)
      · rw [if_neg h0] at hrow
        by_cases h72 : m < 72
        · rw [if_pos h72] at hrow
          exact batchRows_ninth r det c _ hc row hrow h9
        · rw [if_neg h72, List.mem_append] at hrow
          rcases hrow with hrow | hrow
          · exact batchRows_ninth r det c 8 hc row hrow h9
          · exact ih (m - 72) (by omega) (c + 72)
              (by obtain ⟨q, rfl⟩ := hc; exact ⟨q + 8, by ring⟩) row hrow h9

/-- C10: the CSV emitted for an `n`-frame video carries exactly the
frame indices `0, 1, …, 9·⌊n/9⌋ − 1`, contiguous and strictly
increasing (trailing frames that do not fill a complete 9-frame
sequence receive no row), and every row whose frame index is a
sequence-final frame (`≡ 8 (mod 9)`) is written as visibility 0 with
`X = Y = 0`, whatever the per-frame detections are. -/
theorem track_rows_structure (r : ℚ) (det : ℕ → List (ℕ × ℕ)) (n : ℕ) :
    (trackCSV r det n).map Row.frame = List.range (9 * (n / 9)) ∧
    ∀ row ∈ trackCSV r det n, row.frame % 9 = 8 →
      row.vis = 0 ∧ row.x = 0 ∧ row.y = 0 := by
  constructor
  · rw [trackCSV, inferenceRows_frames]
    simp
  · intro row h
    exact inferenceRows_ninth r det n 0 ⟨0, rfl⟩ row h

/-- C10 witness: a 20-frame video — rows are exactly frames `0–17`
(frames 18 and 19 are discarded), and the sequence-final row 8 is
all-zero. -/
theorem track_rows_structure_witness :
    ((trackCSV (1 / 2) (fun _ => [(3, 4)]) 20).map Row.frame =
      List.range 18) ∧
    (⟨8, 0, 0, 0⟩ : Row) ∈ trackCSV (1 / 2) (fun _ => [(3, 4)]) 20 ∧
    (⟨8, 0, 0, 0⟩ : Row).frame % 9 = 8 ∧
    ((⟨8, 0, 0, 0⟩ : Row).vis = 0 ∧ (⟨8, 0, 0, 0⟩ : Row).x = 0 ∧
      (⟨8, 0, 0, 0⟩ : Row).y = 0) := by
  have h := track_rows_structure (1 / 2) (fun _ => [(3, 4)]) 20
  have hmem : (⟨8, 0, 0, 0⟩ : Row) ∈ trackCSV (1 / 2) (fun _ => [(3, 4)]) 20 := by
    rw [trackCSV, inferenceRows, if_neg (by omega), if_pos (by omega)]
    rw [batchRows]
    apply List.mem_flatMap.mpr
    refine ⟨0, by simp, ?_⟩
    rw [seqRows]
    apply List.mem_append_right
    simp
  refine ⟨?_, hmem, rfl, h.2 _ hmem rfl⟩
  have := h.1
  simpa using this

end Camera
